import Mathlib

/-!
Verification development for the `software-design-simulator` repository.

The development shallowly embeds the two Python modules the claims are
about:

* `simulator/expression.py` — a tokenizer (`_tokenise`), a recursive
  descent parser (`_Parser`) and the public entry point
  `evaluate_expression`.  Python `float` values are modelled as `Rat`;
  every numeric scenario checked below involves only exactly
  representable values and exact operations, so the rational model agrees
  with double precision on all of them.  The parser's `while` loops and
  mutual recursion are embedded with an explicit fuel argument; the
  out-of-fuel outcome is the distinguished error `fuelExhausted`, which
  no theorem below ever treats as observable program behaviour.  Python's
  raised `ValueError`s are refined into one constructor per `raise` site.
* `simulator/project.py` — `Phase.sample_duration` and
  `ProjectSimulator.simulate`.  Python's `random.Random(seed)` is a
  pseudo-random generator from the standard library (outside this
  repository); it is modelled as an arbitrary stream of uniform draws
  `mt : Int → Nat → Rat` indexed by the seed, and the process-global
  generator used when `seed is None` is a second stream passed
  explicitly, so that (in)dependence on it is provable.
-/

set_option allowUnsafeReducibility true
attribute [local semireducible] Rat.add Rat.sub Rat.mul Rat.div Rat.neg Rat.inv

namespace SDS

/-- Error kinds, one per `raise ValueError(...)` site of
`simulator/expression.py` (plus `indexError` for the out-of-bounds list
access Python would turn into an `IndexError`, and `fuelExhausted`,
an artefact of the fuel-based embedding of the recursive parser). -/
inductive EvalError where
  | emptyInput : EvalError
  | unexpectedCharacter : Char → EvalError
  | invalidLiteral : String → EvalError
  | expectedToken : String → String → EvalError
  | trailingTokens : EvalError
  | unexpectedTokenKind : String → EvalError
  | divisionByZero : EvalError
  | indexError : EvalError
  | fuelExhausted : EvalError
deriving DecidableEq, Repr

/-- `_Token`: a token with a `kind` string drawn from
`{"NUMBER", "+", "-", "*", "/", "(", ")", "EOF"}` and a numeric payload.
In Python the payload of an operator token is the operator character and
of `EOF` the empty string; neither is ever read as a number, so the
embedding stores `0` there. -/
structure Token where
  kind : String
  value : Rat
deriving DecidableEq, Repr

instance {ε α : Type} [DecidableEq ε] [DecidableEq α] : DecidableEq (Except ε α)
  | .error e, .error f => decidable_of_iff (e = f) (by simp)
  | .error _, .ok _ => .isFalse (by simp)
  | .ok _, .error _ => .isFalse (by simp)
  | .ok a, .ok b => decidable_of_iff (a = b) (by simp)

/-- Value of a list of decimal digit characters read left to right. -/
def digitsToNat (cs : List Char) : Nat :=
  cs.foldl (fun a c => 10 * a + (c.toNat - 48)) 0

/-- The character class scanned into one numeric run: digits and `.`. -/
def isNumChar (c : Char) : Bool :=
  c.isDigit || c == '.'

/-- The rational value of a digits-and-dots run that holds at most one
dot: integer part before the dot, fractional part after it. -/
def ratOfRun (cs : List Char) : Rat :=
  let intPart := cs.takeWhile (· ≠ '.')
  let fracPart := (cs.dropWhile (· ≠ '.')).drop 1
  (digitsToNat intPart : Rat) + (digitsToNat fracPart : Rat) / (10 ^ fracPart.length)

/-- Python's `float(literal)` restricted to the digits-and-dots runs the
scanner produces: conversion succeeds iff the run has at most one dot
and at least one digit (`"1."`, `".5"`, `"12"` convert; `"."`, `"1.2.3"`
do not). -/
def floatOfRun (cs : List Char) : Option Rat :=
  if cs.count '.' ≤ 1 ∧ cs.any Char.isDigit then some (ratOfRun cs) else none

/-- The scanning loop of `_tokenise`, producing the tokens before the
final `EOF` sentinel.  Whitespace is skipped; `+ - * / ( )` become
single-character tokens; a maximal run of digits/dots starting at a
digit or dot is converted with `floatOfRun`, failing with
`invalidLiteral` on a malformed run; any other character fails with
`unexpectedCharacter`.  The recursion is driven by a fuel argument so
that the definition reduces in the kernel; every iteration of the
Python loop consumes at least one character, so fuel equal to the input
length (as supplied by `tokenise`) never runs out. -/
def tokeniseAux : Nat → List Char → Except EvalError (List Token)
  | _, [] => .ok []
  | 0, _ :: _ => .error .fuelExhausted
  | f + 1, c :: cs =>
    if c.isWhitespace then
      tokeniseAux f cs
    else if c == '+' || c == '-' || c == '*' || c == '/' || c == '(' || c == ')' then
      (tokeniseAux f cs).map (⟨String.singleton c, 0⟩ :: ·)
    else if isNumChar c then
      match floatOfRun (c :: cs.takeWhile isNumChar) with
      | some v => (tokeniseAux f (cs.dropWhile isNumChar)).map (⟨"NUMBER", v⟩ :: ·)
      | none => .error (.invalidLiteral (String.mk (c :: cs.takeWhile isNumChar)))
    else
      .error (.unexpectedCharacter c)

/-- `_tokenise`: scan the source and append the single `EOF` sentinel. -/
def tokenise (source : String) : Except EvalError (List Token) :=
  (tokeniseAux source.toList.length source.toList).map (· ++ [⟨"EOF", 0⟩])

/-- `self._tokens[self._index]`: the token under the parser cursor,
`none` when the cursor is out of bounds. -/
def currentTok (toks : List Token) (i : Nat) : Option Token :=
  toks[i]?

/-- The body of the `else` branch of `_parse_term`'s loop together with
the `*` branch: apply a multiplicative operator, raising
`divisionByZero` when the divisor is exactly `0`. -/
def applyMulOp (op : String) (value rhs : Rat) : Except EvalError Rat :=
  if op = "*" then .ok (value * rhs)
  else if rhs = 0 then .error .divisionByZero
  else .ok (value / rhs)

/-- One tag per method of `_Parser` (the two `while` loops, which the
embedding expresses as tail recursion, carry their accumulator). -/
inductive PRule where
  | expr : PRule
  | exprLoop : Rat → PRule
  | term : PRule
  | termLoop : Rat → PRule
  | factor : PRule
  | primary : PRule
deriving DecidableEq, Repr

/-- The five mutually recursive methods of `_Parser`, merged into one
fuel-indexed function so that the recursion is structural (and hence
kernel-reducible).  Each arm of the match on the rule tag is one Python
method:

* `expr` — `_parse_expression`: parse a term, then fold `+`/`-` pairs.
* `exprLoop v` — the `while self._current.kind in {"+", "-"}` loop,
  with accumulator `v`.
* `term` — `_parse_term`: parse a factor, then fold `*`/`/` pairs.
* `termLoop v` — the `while self._current.kind in {"*", "/"}` loop,
  applying each operator with `applyMulOp` (division-by-zero check).
* `factor` — `_parse_factor`: unary `+`/`-` chains over a primary.
* `primary` — `_parse_primary`: a `NUMBER` token, or a parenthesised
  expression whose `_consume(")")` raises `expectedToken` on a kind
  mismatch; any other token kind raises `unexpectedTokenKind`. -/
def parseRun : Nat → PRule → List Token → Nat → Except EvalError (Rat × Nat)
  | 0, _, _, _ => .error .fuelExhausted
  | f + 1, r, toks, i =>
    match r with
    | .expr =>
      match parseRun f .term toks i with
      | .error e => .error e
      | .ok (v, i₁) => parseRun f (.exprLoop v) toks i₁
    | .exprLoop v =>
      match currentTok toks i with
      | none => .error .indexError
      | some t =>
        if t.kind = "+" ∨ t.kind = "-" then
          match parseRun f .term toks (i + 1) with
          | .error e => .error e
          | .ok (rhs, i₂) =>
            parseRun f (.exprLoop (if t.kind = "+" then v + rhs else v - rhs)) toks i₂
        else .ok (v, i)
    | .term =>
      match parseRun f .factor toks i with
      | .error e => .error e
      | .ok (v, i₁) => parseRun f (.termLoop v) toks i₁
    | .termLoop v =>
      match currentTok toks i with
      | none => .error .indexError
      | some t =>
        if t.kind = "*" ∨ t.kind = "/" then
          match parseRun f .factor toks (i + 1) with
          | .error e => .error e
          | .ok (rhs, i₂) =>
            match applyMulOp t.kind v rhs with
            | .error e => .error e
            | .ok v' => parseRun f (.termLoop v') toks i₂
        else .ok (v, i)
    | .factor =>
      match currentTok toks i with
      | none => .error .indexError
      | some t =>
        if t.kind = "+" ∨ t.kind = "-" then
          match parseRun f .factor toks (i + 1) with
          | .error e => .error e
          | .ok (v, i₂) => .ok ((if t.kind = "+" then v else -v), i₂)
        else parseRun f .primary toks i
    | .primary =>
      match currentTok toks i with
      | none => .error .indexError
      | some t =>
        if t.kind = "NUMBER" then .ok (t.value, i + 1)
        else if t.kind = "(" then
          match parseRun f .expr toks (i + 1) with
          | .error e => .error e
          | .ok (v, i₂) =>
            match currentTok toks i₂ with
            | none => .error .indexError
            | some t₂ =>
              if t₂.kind = ")" then .ok (v, i₂ + 1)
              else .error (.expectedToken ")" t₂.kind)
        else .error (.unexpectedTokenKind t.kind)

/-- `_parse_expression`. -/
def parseExpr (f : Nat) (toks : List Token) (i : Nat) : Except EvalError (Rat × Nat) :=
  parseRun f .expr toks i

/-- `_parse_term`. -/
def parseTerm (f : Nat) (toks : List Token) (i : Nat) : Except EvalError (Rat × Nat) :=
  parseRun f .term toks i

/-- `_parse_factor`. -/
def parseFactor (f : Nat) (toks : List Token) (i : Nat) : Except EvalError (Rat × Nat) :=
  parseRun f .factor toks i

/-- `_parse_primary`. -/
def parsePrimary (f : Nat) (toks : List Token) (i : Nat) : Except EvalError (Rat × Nat) :=
  parseRun f .primary toks i

/-- Fuel sufficient for any parse of `toks`: between two cursor moves
the parser makes at most a bounded number of calls. -/
def parseFuel (toks : List Token) : Nat :=
  8 * (toks.length + 1)

/-- `_Parser.parse`: parse a full expression starting at cursor `0` and
require the cursor to sit on `EOF` afterwards (`trailingTokens`
otherwise). -/
def parseTokens (toks : List Token) : Except EvalError Rat :=
  match parseExpr (parseFuel toks) toks 0 with
  | .error e => .error e
  | .ok (v, i) =>
    match currentTok toks i with
    | none => .error .indexError
    | some t => if t.kind = "EOF" then .ok v else .error .trailingTokens

/-- `evaluate_expression`: reject empty or all-whitespace input with
`emptyInput`, otherwise tokenize and parse. -/
def evaluate_expression (s : String) : Except EvalError Rat :=
  if s.toList.isEmpty ∨ s.toList.all Char.isWhitespace then
    .error .emptyInput
  else
    match tokenise s with
    | .error e => .error e
    | .ok toks => parseTokens toks

/-- Error raised by `ProjectSimulator.simulate` for a non-positive
complexity (the constructor checks of `ProjectSimulator.__init__` are
captured by hypotheses on the theorems instead). -/
inductive SimError where
  | nonPositiveComplexity : SimError
deriving DecidableEq, Repr

/-- `Phase` of `simulator/project.py`. -/
structure Phase where
  name : String
  base_days : Rat
  complexity_multiplier : Rat
  variability : Rat
  quality_impact : Rat
deriving DecidableEq, Repr

/-- `Phase.sample_duration`, with the single `rng.uniform(-spread,
spread)` draw supplied as the uniform sample `u ∈ [0, 1)` it consumes:
CPython's `uniform(a, b)` returns `a + (b - a) * random()`. -/
def Phase.sample_duration (p : Phase) (complexity : Rat) (u : Rat) : Rat :=
  let expected := p.base_days + p.complexity_multiplier * max (complexity - 1) 0
  let spread := expected * p.variability
  let offset := -spread + (spread - -spread) * u
  max (expected + offset) 0

/-- `PhaseOutcome` of `simulator/project.py`. -/
structure PhaseOutcome where
  name : String
  planned_days : Rat
  actual_days : Rat
  start_day : Rat
  end_day : Rat
  quality_delta : Rat
deriving DecidableEq, Repr

/-- The result dictionary returned by `ProjectSimulator.simulate`. -/
structure SimResult where
  total_days : Rat
  budget_used : Rat
  quality_score : Rat
  timeline : List PhaseOutcome
deriving DecidableEq, Repr

/-- `ProjectSimulator`'s fields after `__init__` (whose validation —
non-empty phases, positive team size, non-negative cost — appears as
hypotheses on the theorems). -/
structure ProjectSimulator where
  phases : List Phase
  team_size : Int
  cost_per_day : Rat
deriving DecidableEq, Repr

/-- The `for phase in self._phases` loop of `ProjectSimulator.simulate`:
`k` counts the uniform draws consumed so far (one per phase),
`dayCursor` and `quality` are the loop accumulators.  Returns the
outcome list together with the final quality score and day cursor. -/
def simulateLoop (complexity : Rat) (u : Nat → Rat) :
    Nat → Rat → Rat → List Phase → List PhaseOutcome × Rat × Rat
  | _, dayCursor, quality, [] => ([], quality, dayCursor)
  | k, dayCursor, quality, p :: rest =>
    let planned := p.base_days + p.complexity_multiplier * max (complexity - 1) 0
    let actual := p.sample_duration complexity (u k)
    let start_day := dayCursor
    let end_day := start_day + actual
    let (outs, q, d) :=
      simulateLoop complexity u (k + 1) end_day (quality + p.quality_impact) rest
    (⟨p.name, planned, actual, start_day, end_day, p.quality_impact⟩ :: outs, q, d)

/-- The body of `ProjectSimulator.simulate` once the stream `u` of
uniform draws the run will consume is fixed. -/
def ProjectSimulator.simulateWith (sim : ProjectSimulator) (complexity : Rat)
    (u : Nat → Rat) : Except SimError SimResult :=
  if complexity ≤ 0 then .error .nonPositiveComplexity
  else
    let (outs, q, total) := simulateLoop complexity u 0 0 70 sim.phases
    .ok
      { total_days := total
        budget_used := total * sim.team_size * sim.cost_per_day
        quality_score := max (min q 100) 0
        timeline := outs }

/-- `ProjectSimulator.simulate`.  `mt s` models the stream of uniform
draws of the locally constructed `random.Random(s)` (the Mersenne
Twister of Python's standard library, outside this repository);
`globalU` models the state of the process-global generator that
`random.Random(None)` would draw entropy from.  The code constructs
`rng = random.Random(seed)`, so a provided integer seed selects `mt
seed` and the global state is never read. -/
def ProjectSimulator.simulate (sim : ProjectSimulator) (complexity : Rat)
    (mt : Int → Nat → Rat) (globalU : Nat → Rat) (seed : Option Int) :
    Except SimError SimResult :=
  sim.simulateWith complexity (match seed with | some s => mt s | none => globalU)

/-- `DEFAULT_PHASES` of `simulator/project.py`. -/
def DEFAULT_PHASES : List Phase :=
  [⟨"Requirements", 10, 6, 1/10, 5⟩,
   ⟨"Design", 12, 5, 15/100, 15/2⟩,
   ⟨"Implementation", 30, 12, 1/5, 3⟩,
   ⟨"Verification", 14, 8, 1/10, 9/2⟩,
   ⟨"Deployment", 5, 2, 1/20, -1⟩]

/-! ## Helper lemmas about the tokenizer -/

/-- The scanning loop never emits an `EOF`-kinded token. -/
lemma tokeniseAux_no_eof :
    ∀ (f : Nat) (cs : List Char) (pre : List Token),
      tokeniseAux f cs = .ok pre → ∀ t ∈ pre, t.kind ≠ "EOF" := by
  intro f
  induction f with
  | zero =>
    intro cs pre h t ht
    cases cs with
    | nil => simp [tokeniseAux] at h; subst h; simp at ht
    | cons c cs => simp [tokeniseAux] at h
  | succ f ih =>
    intro cs pre h t ht
    cases cs with
    | nil => simp [tokeniseAux] at h; subst h; simp at ht
    | cons c cs =>
      rw [tokeniseAux] at h
      by_cases hw : c.isWhitespace
      · rw [if_pos hw] at h
        exact ih cs pre h t ht
      · rw [if_neg hw] at h
        by_cases hop : (c == '+' || c == '-' || c == '*' || c == '/' || c == '(' || c == ')') = true
        · rw [if_pos hop] at h
          cases hrec : tokeniseAux f cs with
          | error e => rw [hrec] at h; simp [Except.map] at h
          | ok pre' =>
            rw [hrec] at h
            simp [Except.map] at h
            subst h
            rcases List.mem_cons.mp ht with ht' | ht'
            · subst ht'
              simp only [ne_eq]
              intro habs
              have h1 : (String.singleton c).length = 1 := by
                simp [String.singleton]
              rw [habs] at h1
              exact absurd h1 (by decide)
            · exact ih cs pre' hrec t ht'
        · rw [if_neg hop] at h
          by_cases hn : isNumChar c = true
          · rw [if_pos hn] at h
            cases hfr : floatOfRun (c :: cs.takeWhile isNumChar) with
            | none => rw [hfr] at h; simp at h
            | some v =>
              rw [hfr] at h
              cases hrec : tokeniseAux f (cs.dropWhile isNumChar) with
              | error e => rw [hrec] at h; simp [Except.map] at h
              | ok pre' =>
                rw [hrec] at h
                simp [Except.map] at h
                subst h
                rcases List.mem_cons.mp ht with ht' | ht'
                · subst ht'; simp
                · exact ih _ pre' hrec t ht'
          · rw [if_neg hn] at h
            simp at h

/-- A digit or dot is not whitespace. -/
lemma isNumChar_not_whitespace (c : Char) (h : isNumChar c = true) :
    ¬ (c.isWhitespace = true) := by
  intro hw
  have : c = ' ' ∨ c = '\t' ∨ c = '\r' ∨ c = '\n' := by
    simp [Char.isWhitespace] at hw
    tauto
  rcases this with rfl | rfl | rfl | rfl <;> exact absurd h (by decide)

/-- A digit or dot is not an operator or parenthesis character. -/
lemma isNumChar_not_op (c : Char) (h : isNumChar c = true) :
    ¬ ((c == '+' || c == '-' || c == '*' || c == '/' || c == '(' || c == ')') = true) := by
  intro hop
  have : c = '+' ∨ c = '-' ∨ c = '*' ∨ c = '/' ∨ c = '(' ∨ c = ')' := by
    simp at hop
    tauto
  rcases this with rfl | rfl | rfl | rfl | rfl | rfl <;> exact absurd h (by decide)

/-! ## Helper lemmas about the parser -/

lemma parseRun_expr_succ (f : Nat) (toks : List Token) (i : Nat) :
    parseRun (f + 1) .expr toks i =
      match parseRun f .term toks i with
      | .error e => .error e
      | .ok (v, i₁) => parseRun f (.exprLoop v) toks i₁ := rfl

lemma parseRun_term_succ (f : Nat) (toks : List Token) (i : Nat) :
    parseRun (f + 1) .term toks i =
      match parseRun f .factor toks i with
      | .error e => .error e
      | .ok (v, i₁) => parseRun f (.termLoop v) toks i₁ := rfl

/-- The `+`/`-` loop exits at a token that is neither. -/
lemma parseRun_exprLoop_stop (f : Nat) (toks : List Token) (v : Rat) (i : Nat) (t : Token)
    (ht : toks[i]? = some t) (h₁ : t.kind ≠ "+") (h₂ : t.kind ≠ "-") :
    parseRun (f + 1) (.exprLoop v) toks i = .ok (v, i) := by
  simp [parseRun, currentTok, ht, h₁, h₂]

/-- The `*`/`/` loop exits at a token that is neither. -/
lemma parseRun_termLoop_stop (f : Nat) (toks : List Token) (v : Rat) (i : Nat) (t : Token)
    (ht : toks[i]? = some t) (h₃ : t.kind ≠ "*") (h₄ : t.kind ≠ "/") :
    parseRun (f + 1) (.termLoop v) toks i = .ok (v, i) := by
  simp [parseRun, currentTok, ht, h₃, h₄]

lemma parseRun_exprLoop_succ (f : Nat) (toks : List Token) (v : Rat) (i : Nat) :
    parseRun (f + 1) (.exprLoop v) toks i =
      match currentTok toks i with
      | none => .error .indexError
      | some t =>
        if t.kind = "+" ∨ t.kind = "-" then
          match parseRun f .term toks (i + 1) with
          | .error e => .error e
          | .ok (rhs, i₂) =>
            parseRun f (.exprLoop (if t.kind = "+" then v + rhs else v - rhs)) toks i₂
        else .ok (v, i) := rfl

lemma parseRun_termLoop_succ (f : Nat) (toks : List Token) (v : Rat) (i : Nat) :
    parseRun (f + 1) (.termLoop v) toks i =
      match currentTok toks i with
      | none => .error .indexError
      | some t =>
        if t.kind = "*" ∨ t.kind = "/" then
          match parseRun f .factor toks (i + 1) with
          | .error e => .error e
          | .ok (rhs, i₂) =>
            match applyMulOp t.kind v rhs with
            | .error e => .error e
            | .ok v' => parseRun f (.termLoop v') toks i₂
        else .ok (v, i) := rfl

lemma parseRun_factor_succ (f : Nat) (toks : List Token) (i : Nat) :
    parseRun (f + 1) .factor toks i =
      match currentTok toks i with
      | none => .error .indexError
      | some t =>
        if t.kind = "+" ∨ t.kind = "-" then
          match parseRun f .factor toks (i + 1) with
          | .error e => .error e
          | .ok (v, i₂) => .ok ((if t.kind = "+" then v else -v), i₂)
        else parseRun f .primary toks i := rfl

lemma parseRun_primary_succ (f : Nat) (toks : List Token) (i : Nat) :
    parseRun (f + 1) .primary toks i =
      match currentTok toks i with
      | none => .error .indexError
      | some t =>
        if t.kind = "NUMBER" then .ok (t.value, i + 1)
        else if t.kind = "(" then
          match parseRun f .expr toks (i + 1) with
          | .error e => .error e
          | .ok (v, i₂) =>
            match currentTok toks i₂ with
            | none => .error .indexError
            | some t₂ =>
              if t₂.kind = ")" then .ok (v, i₂ + 1)
              else .error (.expectedToken ")" t₂.kind)
        else .error (.unexpectedTokenKind t.kind) := rfl

lemma error_ne_of {x : Except EvalError (Rat × Nat)} {e : EvalError}
    (hne : x ≠ .error .indexError) (hsub : x = .error e) :
    (Except.error e : Except EvalError (Rat × Nat)) ≠ .error .indexError := by
  rw [← hsub]
  exact hne

/-- `applyMulOp` fails only with the division-by-zero error. -/
lemma applyMulOp_error (op : String) (a b : Rat) (e : EvalError)
    (h : applyMulOp op a b = .error e) : e = .divisionByZero := by
  unfold applyMulOp at h
  split_ifs at h
  injection h with h'
  exact h'.symm

/-- A chain of `n` unary `-` tokens followed by a number parses as a
factor to the alternating sign of the number. -/
lemma parseFactor_minus_chain (n : Nat) (v : Rat) :
    ∀ f i (toks : List Token), n + 2 ≤ f →
    (∀ k, k < n → toks[i + k]? = some ⟨"-", 0⟩) →
    toks[i + n]? = some ⟨"NUMBER", v⟩ →
    parseRun f .factor toks i = .ok ((if Even n then v else -v), i + n + 1) := by
  induction n with
  | zero =>
    intro f i toks hf hminus hnum
    obtain ⟨f₁, rfl⟩ : ∃ f₁, f = f₁ + 1 := ⟨f - 1, by omega⟩
    obtain ⟨f₂, rfl⟩ : ∃ f₂, f₁ = f₂ + 1 := ⟨f₁ - 1, by omega⟩
    simp only [Nat.add_zero] at hnum
    simp [parseRun, currentTok, hnum]
  | succ n ih =>
    intro f i toks hf hminus hnum
    obtain ⟨f₁, rfl⟩ : ∃ f₁, f = f₁ + 1 := ⟨f - 1, by omega⟩
    have h0 : toks[i]? = some ⟨"-", 0⟩ := by
      have := hminus 0 (by omega)
      simpa using this
    have hrec := ih f₁ (i + 1) toks (by omega)
      (fun k hk => by
        have := hminus (k + 1) (by omega)
        have e : i + (k + 1) = i + 1 + k := by omega
        rwa [e] at this)
      (by
        have e : i + (n + 1) = i + 1 + n := by omega
        rwa [e] at hnum)
    have e : i + 1 + n + 1 = i + (n + 1) + 1 := by omega
    rcases Nat.even_or_odd n with he | ho
    · have hodd : ¬ Even (n + 1) := by simp [Nat.even_add_one, he]
      simp [parseRun, currentTok, h0, hrec, he, hodd, e]
    · have hne : ¬ Even n := Nat.not_even_iff_odd.mpr ho
      have hev : Even (n + 1) := by simp [Nat.even_add_one, hne]
      simp [parseRun, currentTok, h0, hrec, hne, hev, e]

/-- An expression that consists of exactly one factor followed by a
token that continues neither loop parses to that factor's value. -/
lemma parseExpr_of_factor (m i j : Nat) (toks : List Token) (v : Rat) (t : Token)
    (hfac : ∀ f, m ≤ f → parseRun f .factor toks i = .ok (v, j))
    (ht : toks[j]? = some t)
    (h₁ : t.kind ≠ "+") (h₂ : t.kind ≠ "-") (h₃ : t.kind ≠ "*") (h₄ : t.kind ≠ "/") :
    ∀ F, m + 3 ≤ F → parseRun F .expr toks i = .ok (v, j) := by
  intro F hF
  obtain ⟨f, rfl⟩ : ∃ f, F = f + 3 := ⟨F - 3, by omega⟩
  rw [show f + 3 = (f + 2) + 1 from rfl, parseRun_expr_succ,
    show f + 2 = (f + 1) + 1 from rfl, parseRun_term_succ,
    hfac (f + 1) (by omega)]
  simp only [parseRun_termLoop_stop f toks v j t ht h₃ h₄,
    parseRun_exprLoop_stop (f + 1) toks v j t ht h₁ h₂]

/-- The parser's cursor invariant: on a token list whose last element
(at index `E`) has kind `EOF`, every parser rule started at a cursor
`i ≤ E` never raises `indexError` (every token access is in bounds) and,
on success, returns a cursor `j` with `i ≤ j ≤ E` (monotone, never past
the `EOF` index). -/
lemma parseRun_cursor_bound (toks : List Token) (E : Nat) (tE : Token)
    (hE : toks.length = E + 1) (hEidx : toks[E]? = some tE) (hkE : tE.kind = "EOF") :
    ∀ (f : Nat) (r : PRule) (i : Nat), i ≤ E →
      (parseRun f r toks i ≠ .error .indexError) ∧
      (∀ v j, parseRun f r toks i = .ok (v, j) → i ≤ j ∧ j ≤ E) := by
  have hsome : ∀ i, i ≤ E → ∃ t, toks[i]? = some t := by
    intro i hi
    exact ⟨toks.get ⟨i, by omega⟩, List.getElem?_eq_getElem (by omega)⟩
  have hstep : ∀ i t, i ≤ E → toks[i]? = some t → t.kind ≠ "EOF" → i + 1 ≤ E := by
    intro i t hi ht hk
    rcases Nat.lt_or_ge i E with h | h
    · omega
    · have hiE : i = E := by omega
      subst hiE
      rw [hEidx] at ht
      injection ht with ht
      rw [ht] at hkE
      exact absurd hkE hk
  intro f
  induction f with
  | zero =>
    intro r i hi
    exact ⟨by simp [parseRun], fun v j h => by simp [parseRun] at h⟩
  | succ f ih =>
    intro r i hi
    obtain ⟨t, ht⟩ := hsome i hi
    have hct : currentTok toks i = some t := ht
    cases r with
    | expr =>
      rw [parseRun_expr_succ]
      rcases ih .term i hi with ⟨hne₁, hok₁⟩
      cases hsub : parseRun f .term toks i with
      | error e =>
        exact ⟨error_ne_of hne₁ hsub, fun v j h => absurd h (by simp)⟩
      | ok p =>
        obtain ⟨w, i₁⟩ := p
        rcases hok₁ w i₁ hsub with ⟨h1, h2⟩
        rcases ih (.exprLoop w) i₁ h2 with ⟨hne₂, hok₂⟩
        refine ⟨hne₂, fun v j h => ?_⟩
        rcases hok₂ v j h with ⟨h3, h4⟩
        exact ⟨by omega, h4⟩
    | term =>
      rw [parseRun_term_succ]
      rcases ih .factor i hi with ⟨hne₁, hok₁⟩
      cases hsub : parseRun f .factor toks i with
      | error e =>
        exact ⟨error_ne_of hne₁ hsub, fun v j h => absurd h (by simp)⟩
      | ok p =>
        obtain ⟨w, i₁⟩ := p
        rcases hok₁ w i₁ hsub with ⟨h1, h2⟩
        rcases ih (.termLoop w) i₁ h2 with ⟨hne₂, hok₂⟩
        refine ⟨hne₂, fun v j h => ?_⟩
        rcases hok₂ v j h with ⟨h3, h4⟩
        exact ⟨by omega, h4⟩
    | exprLoop v =>
      rw [parseRun_exprLoop_succ]
      simp only [hct]
      by_cases hpm : t.kind = "+" ∨ t.kind = "-"
      · rw [if_pos hpm]
        have hkne : t.kind ≠ "EOF" := by
          rcases hpm with h | h <;> simp [h]
        have hi1 : i + 1 ≤ E := hstep i t hi ht hkne
        rcases ih .term (i + 1) hi1 with ⟨hne₁, hok₁⟩
        cases hsub : parseRun f .term toks (i + 1) with
        | error e =>
          exact ⟨error_ne_of hne₁ hsub, fun v' j h => absurd h (by simp)⟩
        | ok p =>
          obtain ⟨rhs, i₂⟩ := p
          rcases hok₁ rhs i₂ hsub with ⟨h1, h2⟩
          rcases ih (.exprLoop (if t.kind = "+" then v + rhs else v - rhs)) i₂ h2
            with ⟨hne₂, hok₂⟩
          refine ⟨hne₂, fun v' j h => ?_⟩
          rcases hok₂ v' j h with ⟨h3, h4⟩
          exact ⟨by omega, h4⟩
      · rw [if_neg hpm]
        refine ⟨by simp, fun v' j h => ?_⟩
        simp only [Except.ok.injEq, Prod.mk.injEq] at h
        rcases h with ⟨-, rfl⟩
        exact ⟨Nat.le_refl i, hi⟩
    | termLoop v =>
      rw [parseRun_termLoop_succ]
      simp only [hct]
      by_cases hpm : t.kind = "*" ∨ t.kind = "/"
      · rw [if_pos hpm]
        have hkne : t.kind ≠ "EOF" := by
          rcases hpm with h | h <;> simp [h]
        have hi1 : i + 1 ≤ E := hstep i t hi ht hkne
        rcases ih .factor (i + 1) hi1 with ⟨hne₁, hok₁⟩
        cases hsub : parseRun f .factor toks (i + 1) with
        | error e =>
          exact ⟨error_ne_of hne₁ hsub, fun v' j h => absurd h (by simp)⟩
        | ok p =>
          obtain ⟨rhs, i₂⟩ := p
          rcases hok₁ rhs i₂ hsub with ⟨h1, h2⟩
          cases hap : applyMulOp t.kind v rhs with
          | error e =>
            have he := applyMulOp_error _ _ _ _ hap
            subst he
            simp only [hap]
            exact ⟨by simp, fun v' j h => absurd h (by simp)⟩
          | ok v' =>
            simp only [hap]
            rcases ih (.termLoop v') i₂ h2 with ⟨hne₂, hok₂⟩
            refine ⟨hne₂, fun v'' j h => ?_⟩
            rcases hok₂ v'' j h with ⟨h3, h4⟩
            exact ⟨by omega, h4⟩
      · rw [if_neg hpm]
        refine ⟨by simp, fun v' j h => ?_⟩
        simp only [Except.ok.injEq, Prod.mk.injEq] at h
        rcases h with ⟨-, rfl⟩
        exact ⟨Nat.le_refl i, hi⟩
    | factor =>
      rw [parseRun_factor_succ]
      simp only [hct]
      by_cases hpm : t.kind = "+" ∨ t.kind = "-"
      · rw [if_pos hpm]
        have hkne : t.kind ≠ "EOF" := by
          rcases hpm with h | h <;> simp [h]
        have hi1 : i + 1 ≤ E := hstep i t hi ht hkne
        rcases ih .factor (i + 1) hi1 with ⟨hne₁, hok₁⟩
        cases hsub : parseRun f .factor toks (i + 1) with
        | error e =>
          exact ⟨error_ne_of hne₁ hsub, fun v' j h => absurd h (by simp)⟩
        | ok p =>
          obtain ⟨w, i₂⟩ := p
          rcases hok₁ w i₂ hsub with ⟨h1, h2⟩
          refine ⟨by simp, fun v' j h => ?_⟩
          simp only [Except.ok.injEq, Prod.mk.injEq] at h
          rcases h with ⟨-, rfl⟩
          exact ⟨by omega, h2⟩
      · rw [if_neg hpm]
        exact ih .primary i hi
    | primary =>
      rw [parseRun_primary_succ]
      simp only [hct]
      by_cases hn : t.kind = "NUMBER"
      · rw [if_pos hn]
        have hi1 : i + 1 ≤ E := hstep i t hi ht (by rw [hn]; decide)
        refine ⟨by simp, fun v j h => ?_⟩
        simp only [Except.ok.injEq, Prod.mk.injEq] at h
        rcases h with ⟨-, rfl⟩
        exact ⟨Nat.le_succ i, hi1⟩
      · rw [if_neg hn]
        by_cases hp : t.kind = "("
        · rw [if_pos hp]
          have hi1 : i + 1 ≤ E := hstep i t hi ht (by rw [hp]; decide)
          rcases ih .expr (i + 1) hi1 with ⟨hne₁, hok₁⟩
          cases hsub : parseRun f .expr toks (i + 1) with
          | error e =>
            exact ⟨error_ne_of hne₁ hsub, fun v j h => absurd h (by simp)⟩
          | ok p =>
            obtain ⟨w, i₂⟩ := p
            rcases hok₁ w i₂ hsub with ⟨h1, h2⟩
            obtain ⟨t₂, ht₂⟩ := hsome i₂ h2
            have hct₂ : currentTok toks i₂ = some t₂ := ht₂
            simp only [hct₂]
            by_cases hr : t₂.kind = ")"
            · rw [if_pos hr]
              have hi2 : i₂ + 1 ≤ E := hstep i₂ t₂ h2 ht₂ (by rw [hr]; decide)
              refine ⟨by simp, fun v j h => ?_⟩
              simp only [Except.ok.injEq, Prod.mk.injEq] at h
              rcases h with ⟨-, rfl⟩
              exact ⟨by omega, hi2⟩
            · rw [if_neg hr]
              exact ⟨by simp, fun v j h => absurd h (by simp)⟩
        · rw [if_neg hp]
          exact ⟨by simp, fun v j h => absurd h (by simp)⟩

/-! ## Claim theorems -/

/-- C1: each of the eight concrete scenarios of the spec evaluates to
exactly the stated value: `"1 + 2"` to `3.0`, `"2 * 3 + 4"` to `10.0`,
`"2 * (3 + 4)"` to `14.0`, `"(1 + 2) * (3 + 4)"` to `21.0`,
`"-5 + 10"` to `5.0`, `"-3 * -2"` to `6.0`, `"8 / 4"` to `2.0` and
`"3 + 4 * 2 / (1 - 5)"` to `1.0` (all values exactly representable, so
the rational model coincides with double precision). -/
theorem concrete_scenarios_evaluate_as_specified :
    evaluate_expression "1 + 2" = .ok 3 ∧
    evaluate_expression "2 * 3 + 4" = .ok 10 ∧
    evaluate_expression "2 * (3 + 4)" = .ok 14 ∧
    evaluate_expression "(1 + 2) * (3 + 4)" = .ok 21 ∧
    evaluate_expression "-5 + 10" = .ok 5 ∧
    evaluate_expression "-3 * -2" = .ok 6 ∧
    evaluate_expression "8 / 4" = .ok 2 ∧
    evaluate_expression "3 + 4 * 2 / (1 - 5)" = .ok 1 :=
  ⟨by decide, by decide, by decide, by decide, by decide, by decide, by decide, by decide⟩

/-- C2: a division whose divisor evaluates to exactly `0` fails with
`divisionByZero` — the check sits in the evaluation of each `/`
operation (`applyMulOp`, the operator-application step of
`_parse_term`'s loop), so it fires once per division at evaluation
time: `"1/(2-2)"` fails with `divisionByZero` while `"0/1"` succeeds
and returns `0.0`. -/
theorem division_by_zero_checked_at_evaluation_time :
    (∀ v : Rat, applyMulOp "/" v 0 = .error .divisionByZero) ∧
    evaluate_expression "1/(2-2)" = .error .divisionByZero ∧
    evaluate_expression "0/1" = .ok 0 :=
  ⟨fun v => by simp [applyMulOp], by decide, by decide⟩

/-- C3: chains of same-precedence binary operators group left to
right: on the token sequences of `a - b - c`, `a + b - c`,
`a / b / c` and `a * b / c` the parser returns `(a - b) - c`,
`(a + b) - c`, `(a / b) / c` and `(a * b) / c` respectively (the
division chains assume the divisors are non-zero, otherwise the
division-by-zero check fires first). -/
theorem same_precedence_chains_fold_left_to_right (a b c : Rat)
    (hb : b ≠ 0) (hc : c ≠ 0) :
    parseTokens [⟨"NUMBER", a⟩, ⟨"-", 0⟩, ⟨"NUMBER", b⟩, ⟨"-", 0⟩, ⟨"NUMBER", c⟩, ⟨"EOF", 0⟩]
      = .ok ((a - b) - c) ∧
    parseTokens [⟨"NUMBER", a⟩, ⟨"+", 0⟩, ⟨"NUMBER", b⟩, ⟨"-", 0⟩, ⟨"NUMBER", c⟩, ⟨"EOF", 0⟩]
      = .ok ((a + b) - c) ∧
    parseTokens [⟨"NUMBER", a⟩, ⟨"/", 0⟩, ⟨"NUMBER", b⟩, ⟨"/", 0⟩, ⟨"NUMBER", c⟩, ⟨"EOF", 0⟩]
      = .ok ((a / b) / c) ∧
    parseTokens [⟨"NUMBER", a⟩, ⟨"*", 0⟩, ⟨"NUMBER", b⟩, ⟨"/", 0⟩, ⟨"NUMBER", c⟩, ⟨"EOF", 0⟩]
      = .ok ((a * b) / c) := by
  refine ⟨?_, ?_, ?_, ?_⟩ <;>
    simp [parseTokens, parseFuel, parseExpr, parseRun, currentTok, applyMulOp, hb, hc]

/-- C4: a string of `n` consecutive `-` signs before a numeric literal
evaluates to the literal's value if `n` is even and to its negation if
`n` is odd: on the token sequence of `n` `-` tokens followed by a
number `v`, the parser returns `v` for even `n` and `-v` for odd `n`;
concretely, `"--3"` evaluates to `3` and `"-+-3"` to `3`. -/
theorem unary_minus_chain_parity :
    (∀ (n : Nat) (v : Rat),
      parseTokens (List.replicate n ⟨"-", 0⟩ ++ [⟨"NUMBER", v⟩, ⟨"EOF", 0⟩])
        = .ok (if Even n then v else -v)) ∧
    evaluate_expression "--3" = .ok 3 ∧
    evaluate_expression "-+-3" = .ok 3 := by
  refine ⟨fun n v => ?_, by decide, by decide⟩
  set toks : List Token := List.replicate n ⟨"-", 0⟩ ++ [⟨"NUMBER", v⟩, ⟨"EOF", 0⟩] with htoks
  have hlen : toks.length = n + 2 := by simp [htoks]
  have hminus : ∀ k, k < n → toks[k]? = some ⟨"-", 0⟩ := by
    intro k hk
    simp [htoks, List.getElem?_append, List.getElem?_replicate, hk]
  have hnum : toks[n]? = some (⟨"NUMBER", v⟩ : Token) := by
    rw [htoks, List.getElem?_append_right (by simp)]
    simp
  have heof : toks[n + 1]? = some (⟨"EOF", 0⟩ : Token) := by
    rw [htoks, List.getElem?_append_right (by simp)]
    simp
  have hfac : ∀ f, n + 2 ≤ f →
      parseRun f .factor toks 0 = .ok ((if Even n then v else -v), n + 1) := by
    intro f hf
    have := parseFactor_minus_chain n v f 0 toks hf (by simpa using hminus) (by simpa using hnum)
    simpa using this
  have hexpr := parseExpr_of_factor (n + 2) 0 (n + 1) toks (if Even n then v else -v)
    ⟨"EOF", 0⟩ hfac heof (by decide) (by decide) (by decide) (by decide)
  have hF : n + 2 + 3 ≤ parseFuel toks := by
    rw [parseFuel, hlen]
    omega
  simp [parseTokens, parseExpr, hexpr _ hF, currentTok, heof]

/-- C5: whenever the tokenizer succeeds, the returned token sequence is
non-empty, its last token is the `EOF` sentinel, and no token before
the last has kind `EOF`. -/
theorem tokenise_ends_with_unique_eof (s : String) (toks : List Token)
    (h : tokenise s = .ok toks) :
    toks ≠ [] ∧ toks.getLast? = some ⟨"EOF", 0⟩ ∧
      ∀ t ∈ toks.dropLast, t.kind ≠ "EOF" := by
  unfold tokenise at h
  cases haux : tokeniseAux s.toList.length s.toList with
  | error e => rw [haux] at h; simp [Except.map] at h
  | ok pre =>
    rw [haux] at h
    simp [Except.map] at h
    subst h
    refine ⟨by simp, by simp, ?_⟩
    rw [List.dropLast_concat]
    exact tokeniseAux_no_eof _ _ _ haux

/-- Witness for C5 at the input `"1+2"`. -/
theorem tokenise_ends_with_unique_eof_witness :
    tokenise "1+2" = .ok [⟨"NUMBER", 1⟩, ⟨"+", 0⟩, ⟨"NUMBER", 2⟩, ⟨"EOF", 0⟩] ∧
    (([⟨"NUMBER", 1⟩, ⟨"+", 0⟩, ⟨"NUMBER", 2⟩, ⟨"EOF", 0⟩] : List Token) ≠ [] ∧
      ([⟨"NUMBER", 1⟩, ⟨"+", 0⟩, ⟨"NUMBER", 2⟩, ⟨"EOF", 0⟩] : List Token).getLast?
        = some ⟨"EOF", 0⟩ ∧
      ∀ t ∈ ([⟨"NUMBER", 1⟩, ⟨"+", 0⟩, ⟨"NUMBER", 2⟩, ⟨"EOF", 0⟩] : List Token).dropLast,
        t.kind ≠ "EOF") :=
  ⟨by decide, tokenise_ends_with_unique_eof "1+2" _ (by decide)⟩

/-- C7: an empty string, and any string consisting only of whitespace,
is rejected with the `emptyInput` error (the `ValueError` whose message
says the expression must be non-empty), before tokenization is
attempted. -/
theorem empty_or_whitespace_input_rejected (s : String)
    (h : s.toList.all Char.isWhitespace) :
    evaluate_expression s = .error .emptyInput := by
  unfold evaluate_expression
  rw [if_pos (Or.inr h)]

/-- Witness for C7 at the all-whitespace input `"  "` (the empty string
also satisfies the hypothesis). -/
theorem empty_or_whitespace_input_rejected_witness :
    ("  ".toList.all Char.isWhitespace) = true ∧
    evaluate_expression "  " = .error .emptyInput :=
  ⟨by decide, empty_or_whitespace_input_rejected "  " (by decide)⟩

/-- C8: a numeric run (non-empty, all digits/dots) is scanned whole —
multiple decimal points are not rejected during scanning — and the
tokenizer fails with `invalidLiteral` carrying exactly that run if and
only if the run does not convert to a valid floating-point number;
concretely `"1.2.3"` fails this way. -/
theorem multi_dot_literal_checked_at_conversion (cs : List Char) (hne : cs ≠ [])
    (hnum : ∀ c ∈ cs, isNumChar c) :
    (tokenise (String.mk cs) = .error (.invalidLiteral (String.mk cs)) ↔
      floatOfRun cs = none) ∧
    evaluate_expression "1.2.3" = .error (.invalidLiteral "1.2.3") := by
  refine ⟨?_, by decide⟩
  obtain ⟨c, cs', rfl⟩ : ∃ c cs', cs = c :: cs' := by
    cases cs with
    | nil => exact absurd rfl hne
    | cons c cs' => exact ⟨c, cs', rfl⟩
  have hc : isNumChar c := hnum c (by simp)
  have htl : (String.mk (c :: cs')).toList = c :: cs' := rfl
  have htake : cs'.takeWhile isNumChar = cs' :=
    List.takeWhile_eq_self_iff.mpr (fun x hx => hnum x (by simp [hx]))
  have hdrop : cs'.dropWhile isNumChar = [] :=
    List.dropWhile_eq_nil_iff.mpr (fun x hx => hnum x (by simp [hx]))
  unfold tokenise
  rw [htl]
  simp only [List.length_cons]
  rw [tokeniseAux]
  rw [if_neg (isNumChar_not_whitespace c hc), if_neg (isNumChar_not_op c hc), if_pos hc,
    htake, hdrop]
  cases hfr : floatOfRun (c :: cs') with
  | none => simp [hfr, Except.map]
  | some v => simp [hfr, tokeniseAux, Except.map]

/-- Witness for C8 at the run `"1.2.3"` (two dots, so conversion fails
and the tokenizer reports the whole run). -/
theorem multi_dot_literal_checked_at_conversion_witness :
    (['1', '.', '2', '.', '3'] : List Char) ≠ [] ∧
    (∀ c ∈ (['1', '.', '2', '.', '3'] : List Char), isNumChar c) ∧
    ((tokenise (String.mk ['1', '.', '2', '.', '3'])
        = .error (.invalidLiteral (String.mk ['1', '.', '2', '.', '3'])) ↔
      floatOfRun ['1', '.', '2', '.', '3'] = none) ∧
    evaluate_expression "1.2.3" = .error (.invalidLiteral "1.2.3")) :=
  ⟨by decide, by decide,
    multi_dot_literal_checked_at_conversion ['1', '.', '2', '.', '3'] (by decide) (by decide)⟩

/-- C6: for a token sequence whose last token (and only its last
token) is `EOF`, the parse cursor is monotonically non-decreasing
(every rule returns a cursor `j ≥ i`), every token access is within
bounds and the cursor never advances past the `EOF` index — whether the
parse succeeds or fails (`indexError`, the out-of-bounds access, is
never the outcome) — and the full `_Parser.parse` never makes an
out-of-bounds access either. -/
theorem parser_cursor_safety (toks : List Token) (tE : Token)
    (hlast : toks.getLast? = some tE) (hkind : tE.kind = "EOF")
    (hother : ∀ t ∈ toks.dropLast, t.kind ≠ "EOF") :
    (∀ (f : Nat) (r : PRule) (i : Nat), i ≤ toks.length - 1 →
      (parseRun f r toks i ≠ .error .indexError) ∧
      (∀ v j, parseRun f r toks i = .ok (v, j) → i ≤ j ∧ j ≤ toks.length - 1)) ∧
    parseTokens toks ≠ .error .indexError := by
  have hne : toks ≠ [] := by
    intro hnil
    subst hnil
    simp at hlast
  have hlen : 0 < toks.length := List.length_pos.mpr hne
  have hE : toks.length = (toks.length - 1) + 1 := by omega
  have hEidx : toks[toks.length - 1]? = some tE := by
    rw [← List.getLast?_eq_getElem?]
    exact hlast
  have main := parseRun_cursor_bound toks (toks.length - 1) tE hE hEidx hkind
  refine ⟨main, ?_⟩
  unfold parseTokens parseExpr
  rcases main (parseFuel toks) .expr 0 (by omega) with ⟨hne₀, hok₀⟩
  cases hsub : parseRun (parseFuel toks) .expr toks 0 with
  | error e =>
    have he : e ≠ .indexError := fun hh => hne₀ (by rw [hsub, hh])
    simpa using he
  | ok p =>
    obtain ⟨v, j⟩ := p
    rcases hok₀ v j hsub with ⟨-, hj⟩
    have hjlt : j < toks.length := by omega
    have hsome : currentTok toks j = some toks[j] :=
      List.getElem?_eq_getElem hjlt
    by_cases hk : toks[j].kind = "EOF"
    · simp [hsome, hk]
    · simp [hsome, hk]

/-- Witness for C6 at the token sequence of `"1"`. -/
theorem parser_cursor_safety_witness :
    ([⟨"NUMBER", 1⟩, ⟨"EOF", 0⟩] : List Token).getLast? = some ⟨"EOF", 0⟩ ∧
    (Token.mk "EOF" 0).kind = "EOF" ∧
    (∀ t ∈ ([⟨"NUMBER", 1⟩, ⟨"EOF", 0⟩] : List Token).dropLast, t.kind ≠ "EOF") ∧
    ((∀ (f : Nat) (r : PRule) (i : Nat),
        i ≤ ([⟨"NUMBER", 1⟩, ⟨"EOF", 0⟩] : List Token).length - 1 →
        (parseRun f r [⟨"NUMBER", 1⟩, ⟨"EOF", 0⟩] i ≠ .error .indexError) ∧
        (∀ v j, parseRun f r [⟨"NUMBER", 1⟩, ⟨"EOF", 0⟩] i = .ok (v, j) →
          i ≤ j ∧ j ≤ ([⟨"NUMBER", 1⟩, ⟨"EOF", 0⟩] : List Token).length - 1)) ∧
      parseTokens [⟨"NUMBER", 1⟩, ⟨"EOF", 0⟩] ≠ .error .indexError) :=
  ⟨by decide, by decide, by decide,
    parser_cursor_safety [⟨"NUMBER", 1⟩, ⟨"EOF", 0⟩] ⟨"EOF", 0⟩
      (by decide) (by decide) (by decide)⟩


/-- Witness for C3 at `a = 9`, `b = 3`, `c = 2`. -/
theorem same_precedence_chains_fold_left_to_right_witness :
    parseTokens [⟨"NUMBER", 9⟩, ⟨"-", 0⟩, ⟨"NUMBER", 3⟩, ⟨"-", 0⟩, ⟨"NUMBER", 2⟩, ⟨"EOF", 0⟩]
      = .ok 4 ∧
    parseTokens [⟨"NUMBER", 9⟩, ⟨"/", 0⟩, ⟨"NUMBER", 3⟩, ⟨"/", 0⟩, ⟨"NUMBER", 2⟩, ⟨"EOF", 0⟩]
      = .ok (3 / 2) := by
  have h := same_precedence_chains_fold_left_to_right 9 3 2 (by decide) (by decide)
  exact ⟨by rw [h.1]; decide, by rw [h.2.2.1]; decide⟩

/-- The invariants of the `for phase in self._phases` loop of
`ProjectSimulator.simulate`: outcomes are empty iff there is no phase;
the first outcome starts at the incoming day cursor; every outcome ends
at its start plus its actual duration; consecutive outcomes are
contiguous; and the final day cursor is the incoming one when no phase
ran and the last outcome's end day otherwise. -/
lemma simulateLoop_spec (complexity : Rat) (u : Nat → Rat) :
    ∀ (phases : List Phase) (k : Nat) (d q : Rat) (outs : List PhaseOutcome) (q' d' : Rat),
      simulateLoop complexity u k d q phases = (outs, q', d') →
      (outs = [] ↔ phases = []) ∧
      (∀ o, outs.head? = some o → o.start_day = d) ∧
      (∀ o ∈ outs, o.end_day = o.start_day + o.actual_days) ∧
      (∀ n o₁ o₂, outs[n]? = some o₁ → outs[n + 1]? = some o₂ →
        o₂.start_day = o₁.end_day) ∧
      (outs = [] → d' = d) ∧
      (∀ o, outs.getLast? = some o → d' = o.end_day) := by
  intro phases
  induction phases with
  | nil =>
    intro k d q outs q' d' h
    simp only [simulateLoop, Prod.mk.injEq] at h
    obtain ⟨rfl, rfl, rfl⟩ := h
    exact ⟨by simp, by simp, by simp, by simp, fun _ => rfl, by simp⟩
  | cons p rest ih =>
    intro k d q outs q' d' h
    simp only [simulateLoop] at h
    cases hsl : simulateLoop complexity u (k + 1)
        (d + p.sample_duration complexity (u k)) (q + p.quality_impact) rest with
    | mk outs₀ rest₀ =>
      obtain ⟨q₀, d₀⟩ := rest₀
      rw [hsl] at h
      simp only [Prod.mk.injEq] at h
      obtain ⟨houts, rfl, rfl⟩ := h
      subst houts
      rcases ih (k + 1) (d + p.sample_duration complexity (u k)) (q + p.quality_impact)
        outs₀ q₀ d₀ hsl with ⟨hempty, hhead, hend, hchain, hnil, hlast⟩
      refine ⟨by simp, ?_, ?_, ?_, by simp, ?_⟩
      · intro o ho
        rw [List.head?_cons, Option.some.injEq] at ho
        subst ho
        rfl
      · intro o ho
        rcases List.mem_cons.mp ho with rfl | ho'
        · rfl
        · exact hend o ho'
      · intro n o₁ o₂ h₁ h₂
        cases n with
        | zero =>
          rw [List.getElem?_cons_zero, Option.some.injEq] at h₁
          subst h₁
          rw [List.getElem?_cons_succ] at h₂
          have hh : outs₀.head? = some o₂ := by
            rw [List.head?_eq_getElem?]
            exact h₂
          exact hhead o₂ hh
        | succ n =>
          rw [List.getElem?_cons_succ] at h₁ h₂
          exact hchain n o₁ o₂ h₁ h₂
      · intro o ho
        cases houts0 : outs₀ with
        | nil =>
          subst houts0
          simp only [List.getLast?_singleton, Option.some.injEq] at ho
          subst ho
          exact hnil rfl
        | cons a l =>
          subst houts0
          rw [List.getLast?_cons_cons] at ho
          exact hlast o ho

/-- C9: with a fixed integer seed, `ProjectSimulator.simulate` is a
pure function of its arguments — the uniform draws come from the
locally constructed generator `mt seed` and the process-global
generator state (`g₁` versus `g₂`) is never read, so two calls with
the same phase list, complexity and seed return equal result
dictionaries whatever the global state does in between. -/
theorem simulate_deterministic_for_fixed_seed
    (sim : ProjectSimulator) (complexity : Rat) (mt : Int → Nat → Rat)
    (g₁ g₂ : Nat → Rat) (seed : Int)
    (_hphases : sim.phases ≠ []) (_hc : 0 < complexity) :
    sim.simulate complexity mt g₁ (some seed)
      = sim.simulate complexity mt g₂ (some seed) := rfl

/-- Witness for C9 on the default phases, complexity `2`, seed `42`,
and two different global generator states. -/
theorem simulate_deterministic_witness :
    (DEFAULT_PHASES ≠ []) ∧ ((0 : Rat) < 2) ∧
    (ProjectSimulator.mk DEFAULT_PHASES 5 800).simulate 2 (fun _ _ => 1/2)
        (fun _ => 0) (some 42)
      = (ProjectSimulator.mk DEFAULT_PHASES 5 800).simulate 2 (fun _ _ => 1/2)
        (fun _ => 1) (some 42) :=
  ⟨by decide, by decide,
    simulate_deterministic_for_fixed_seed (ProjectSimulator.mk DEFAULT_PHASES 5 800) 2
      (fun _ _ => 1/2) (fun _ => 0) (fun _ => 1) 42 (by decide) (by decide)⟩

/-- C10: every successful result of `ProjectSimulator.simulate` has a
contiguous timeline: the first phase outcome starts at day `0`, each
outcome's `end_day` is its `start_day` plus its `actual_days`, each
subsequent outcome starts where the previous one ended, and
`total_days` is the last outcome's `end_day`. -/
theorem simulate_timeline_contiguous (sim : ProjectSimulator) (complexity : Rat)
    (u : Nat → Rat) (r : SimResult) (hphases : sim.phases ≠ [])
    (h : sim.simulateWith complexity u = .ok r) :
    r.timeline ≠ [] ∧
    (∀ o, r.timeline.head? = some o → o.start_day = 0) ∧
    (∀ o ∈ r.timeline, o.end_day = o.start_day + o.actual_days) ∧
    (∀ n o₁ o₂, r.timeline[n]? = some o₁ → r.timeline[n + 1]? = some o₂ →
      o₂.start_day = o₁.end_day) ∧
    (∀ o, r.timeline.getLast? = some o → r.total_days = o.end_day) := by
  unfold ProjectSimulator.simulateWith at h
  by_cases hc : complexity ≤ 0
  · rw [if_pos hc] at h
    exact absurd h (by simp)
  · rw [if_neg hc] at h
    cases hsl : simulateLoop complexity u 0 0 70 sim.phases with
    | mk outs rest₀ =>
      obtain ⟨q, total⟩ := rest₀
      rw [hsl] at h
      simp only [Except.ok.injEq] at h
      subst h
      rcases simulateLoop_spec complexity u sim.phases 0 0 70 outs q total hsl
        with ⟨hempty, hhead, hend, hchain, hnil, hlast⟩
      refine ⟨?_, hhead, hend, hchain, ?_⟩
      · intro habs
        exact hphases (hempty.mp habs)
      · intro o ho
        exact hlast o ho

/-- Witness for C10 on a one-phase simulator with zero variability. -/
theorem simulate_timeline_contiguous_witness :
    (ProjectSimulator.mk [⟨"P", 1, 1, 0, 0⟩] 1 1).phases ≠ [] ∧
    (ProjectSimulator.mk [⟨"P", 1, 1, 0, 0⟩] 1 1).simulateWith 1 (fun _ => 0)
      = .ok ⟨1, 1, 70, [⟨"P", 1, 1, 0, 1, 0⟩]⟩ ∧
    (([⟨"P", 1, 1, 0, 1, 0⟩] : List PhaseOutcome) ≠ [] ∧
      (∀ o, ([⟨"P", 1, 1, 0, 1, 0⟩] : List PhaseOutcome).head? = some o →
        o.start_day = 0) ∧
      (∀ o ∈ ([⟨"P", 1, 1, 0, 1, 0⟩] : List PhaseOutcome),
        o.end_day = o.start_day + o.actual_days) ∧
      (∀ n o₁ o₂, ([⟨"P", 1, 1, 0, 1, 0⟩] : List PhaseOutcome)[n]? = some o₁ →
        ([⟨"P", 1, 1, 0, 1, 0⟩] : List PhaseOutcome)[n + 1]? = some o₂ →
        o₂.start_day = o₁.end_day) ∧
      (∀ o, ([⟨"P", 1, 1, 0, 1, 0⟩] : List PhaseOutcome).getLast? = some o →
        (SimResult.mk 1 1 70 [⟨"P", 1, 1, 0, 1, 0⟩]).total_days = o.end_day)) :=
  ⟨by decide, by decide,
    simulate_timeline_contiguous (ProjectSimulator.mk [⟨"P", 1, 1, 0, 0⟩] 1 1) 1
      (fun _ => 0) ⟨1, 1, 70, [⟨"P", 1, 1, 0, 1, 0⟩]⟩ (by decide) (by decide)⟩

end SDS
